import Mathlib

/-!
Shallow embedding of the chat-gpt-graphs detection-and-repair pipeline.

The definitions below are translated from the repository's source:
* `src/extension/background.ts` — `detectErrors`, `attemptAutoFix`, `validateAndFix`
* `src/extension/utils.ts` — `extractMermaidCode`, `looksLikeGraph`, `isProcessed`,
  `markAsProcessed`
* `src/extension/mermaidRenderer.ts` — `renderMermaid`
* the content script — `processElement`, `scanForGraphs`

JavaScript strings are modelled as Lean `String` (lists of characters); the
character classes `\w` and `\s` are modelled over their ASCII parts, which is
exact for every input the theorems below evaluate.  Regular-expression scans
are compiled by hand into left-to-right scanning functions whose behaviour
matches the JavaScript engine (leftmost match, greedy quantifiers with the
backtracking collapsed where it provably cannot change the result).
-/

namespace ChatGptGraphs

/-- ASCII word character, the `\w` class `[A-Za-z0-9_]` of JavaScript regexes. -/
def wordChar (c : Char) : Bool :=
  c.isAlpha || c.isDigit || c == '_'

/-- ASCII whitespace, the ASCII part of the `\s` class (and of `String.trim`). -/
def jsSpace (c : Char) : Bool :=
  c == ' ' || c == '\t' || c == '\n' || c == '\r' || c == '\x0b' || c == '\x0c'

/-- List-of-characters prefix test. -/
def isPrefixList : List Char → List Char → Bool
  | [], _ => true
  | _ :: _, [] => false
  | a :: as, b :: bs => a == b && isPrefixList as bs

/-- Does `pat` occur as a contiguous substring of `l`?  Models `String.includes`
and a bare regex-literal test. -/
def containsSubList (pat : List Char) : List Char → Bool
  | [] => isPrefixList pat []
  | c :: rest => isPrefixList pat (c :: rest) || containsSubList pat rest

/-- `String.includes` on strings. -/
def containsSub (pat s : String) : Bool :=
  containsSubList pat.data s.data

/-- Index of the first occurrence of `pat` in `l`, scanning left to right. -/
def findSubList (pat : List Char) : List Char → Option Nat
  | [] => if isPrefixList pat [] then some 0 else none
  | c :: rest =>
    if isPrefixList pat (c :: rest) then some 0
    else (findSubList pat rest).map (· + 1)

/-- `String.prototype.split('\n')`: split at every newline, keeping empty pieces. -/
def splitLinesList : List Char → List (List Char)
  | [] => [[]]
  | c :: rest =>
    if c == '\n' then [] :: splitLinesList rest
    else
      match splitLinesList rest with
      | [] => [[c]]
      | l :: ls => (c :: l) :: ls

/-- `String.prototype.trim()` (ASCII whitespace). -/
def trimList (l : List Char) : List Char :=
  ((l.dropWhile jsSpace).reverse.dropWhile jsSpace).reverse

/-- `String.prototype.trim()` on strings. -/
def jsTrim (s : String) : String :=
  String.mk (trimList s.data)

/-- Longest leading run of word characters: the capture of `/^(\w+)/`. -/
def takeWord (l : List Char) : List Char :=
  l.takeWhile wordChar

/-- The error taxonomy of `MermaidError.type`; `syn` embeds the string tag
for structural defects, the remaining constructors keep the source's names. -/
inductive ErrType
  | syn
  | node
  | arrow
  | unsupported
  | unknown
deriving DecidableEq, Repr

/-- `MermaidError` record from `background.ts`. -/
structure MermaidError where
  etype : ErrType
  message : String
  line : Option Nat
  suggestion : Option String
deriving DecidableEq, Repr

/-- `FixResult` record from `background.ts`. -/
structure FixResult where
  fixed : Bool
  fixedCode : Option String
  errors : List MermaidError
  suggestions : List String
deriving DecidableEq, Repr

/-- The `supportedTypes` array of `detectErrors`. -/
def supportedTypes : List String :=
  ["flowchart", "graph", "sequenceDiagram", "classDiagram",
   "stateDiagram", "gantt", "pie", "erDiagram", "journey",
   "gitgraph", "mindmap", "timeline", "quadrantChart",
   "requirement", "C4Context", "C4Container", "C4Component",
   "C4Dynamic", "C4Deployment"]

/-- The unsupported-type error record, for a given leading token. -/
def unsupportedRec (tok : List Char) : MermaidError :=
  { etype := ErrType.unsupported
    message := "Unsupported diagram type: " ++ String.mk tok
    line := some 1
    suggestion := some ("Try one of: " ++ String.intercalate ", " (supportedTypes.take 5)) }

/-- The unsupported-diagram-type check of `detectErrors` (its first block). -/
def unsupportedCheck (code : String) : List MermaidError :=
  let firstLine := trimList ((splitLinesList code.data).headD [])
  let tok := takeWord firstLine
  if tok.isEmpty then []
  else if supportedTypes.contains (String.mk tok) then []
  else if firstLine.length < 50 then [unsupportedRec tok]
  else []

/-- Leftmost match of `(\w+)\s*\[` starting exactly at the head of `l`:
returns the captured identifier and the length of the whole match.
Backtracking inside `\w+`/`\s*` cannot produce a match that the greedy
run misses, because a shorter word run is followed by a word character,
which is neither whitespace nor `[`. -/
def nodeDefAt (l : List Char) : Option (List Char × Nat) :=
  let w := l.takeWhile wordChar
  if w.isEmpty then none
  else
    let rest := l.drop w.length
    let ws := rest.takeWhile jsSpace
    match rest.drop ws.length with
    | '[' :: _ => some (w, w.length + ws.length + 1)
    | _ => none

/-- First (leftmost) capture of `line.match(/(\w+)\s*\[/)`. -/
def findNodeDef : List Char → Option (List Char)
  | [] => none
  | c :: rest =>
    match nodeDefAt (c :: rest) with
    | some (w, _) => some w
    | none => findNodeDef rest

/-- `id.replace(/[^a-zA-Z0-9_]/g, '_')`. -/
def sanitizeChars (w : List Char) : List Char :=
  w.map (fun c => if wordChar c then c else '_')

/-- The invalid-node-ID error record for an identifier and 1-based line. -/
def nodeRec (nodeId : List Char) (n : Nat) : MermaidError :=
  { etype := ErrType.node
    message := "Invalid node ID: " ++ String.mk nodeId ++
      ". Node IDs should contain only alphanumeric characters and underscores."
    line := some n
    suggestion := some ("Use a valid ID like: " ++ String.mk (sanitizeChars nodeId)) }

/-- Per-line node-definition check of `detectErrors` (0-based line index). -/
def nodeCheckLine (idx : Nat) (line : List Char) : List MermaidError :=
  match findNodeDef line with
  | none => []
  | some nodeId =>
    if !nodeId.isEmpty && nodeId.all wordChar then []
    else [nodeRec nodeId (idx + 1)]

/-- Condition of the per-line arrow check: the line contains `--` but does not
match the regex alternation of `--` then `-` or `>`, `-->`, `==>` — i.e. it
contains none of the substrings `---`, `-->`, `==>`. -/
def arrowCond (line : List Char) : Bool :=
  containsSubList "--".data line &&
    !(containsSubList "---".data line || containsSubList "-->".data line ||
      containsSubList "==>".data line)

/-- The incomplete-arrow error record for a 1-based line number. -/
def arrowRec (n : Nat) : MermaidError :=
  { etype := ErrType.arrow
    message := "Incomplete arrow syntax. Use --> or ---> for connections."
    line := some n
    suggestion := some "Replace -- with --> or --->" }

/-- Per-line arrow check of `detectErrors` (0-based line index). -/
def arrowCheckLine (idx : Nat) (line : List Char) : List MermaidError :=
  if arrowCond line then [arrowRec (idx + 1)] else []

/-- Both per-line checks, in the source's push order. -/
def perLineChecks (p : Nat × List Char) : List MermaidError :=
  nodeCheckLine p.1 p.2 ++ arrowCheckLine p.1 p.2

/-- The dangling-flowchart check of `detectErrors` (its last block). -/
def flowchartCheck (code : String) : List MermaidError :=
  if containsSub "flowchart" code && !containsSub "-->" code &&
      !containsSub "---" code then
    [{ etype := ErrType.syn
       message := "Flowchart detected but no connections found."
       line := none
       suggestion := some "Add connections using --> or ---" }]
  else []

/-- `detectErrors` from `background.ts`. -/
def detectErrors (code : String) : List MermaidError :=
  unsupportedCheck code ++
    ((splitLinesList code.data).enum.map perLineChecks).flatten ++
    flowchartCheck code

/-- Single digit-prefix step of the sanitizer: `s.replace(/^[0-9]/, '_$&')`
prefixes an underscore when the string starts with a digit. -/
def digitPrefixFix (s : List Char) : List Char :=
  match s with
  | c :: rest => if c.isDigit then '_' :: c :: rest else c :: rest
  | [] => []

/-- The full callback sanitizer of the node-ID fix pass:
`nodeId.replace(/[^a-zA-Z0-9_]/g, '_').replace(/^[0-9]/, '_$&')`. -/
def sanitizeId (w : List Char) : List Char :=
  digitPrefixFix (sanitizeChars w)

/-- Global replace `code.replace(/(\w+)\s*\[/g, cb)` where the callback
substitutes `sanitized + "["` when the sanitized identifier differs and
reports whether any substitution changed the text.  Scanning resumes after
each match (JavaScript `lastIndex` semantics); on failure it advances one
character.  The `Nat` argument is fuel, instantiated with the list length. -/
def nodeReplaceGo : Nat → List Char → List Char × Bool
  | 0, l => (l, false)
  | _ + 1, [] => ([], false)
  | fuel + 1, c :: rest =>
    match nodeDefAt (c :: rest) with
    | some (w, len) =>
      let s := sanitizeId w
      let tail := nodeReplaceGo fuel ((c :: rest).drop len)
      if s ≠ w then (s ++ '[' :: tail.1, true)
      else ((c :: rest).take len ++ tail.1, tail.2)
    | none =>
      let tail := nodeReplaceGo fuel rest
      (c :: tail.1, tail.2)

/-- The node-ID fix pass of `attemptAutoFix`: runs the global rewrite only
when a node-kind error is present; the flag records whether text changed. -/
def nodePass (l : List Char) (errors : List MermaidError) : List Char × Bool :=
  if (errors.filter (fun e => decide (e.etype = ErrType.node))).length > 0 then
    nodeReplaceGo l.length l
  else (l, false)

/-- Global replace, over the whole text, of every `--` that is not followed
by `>` with `-->` (the arrow-fix rewrite of `attemptAutoFix`, written in the
source as a global regex replace of `--` with a negative lookahead for `>`). -/
def arrowReplaceGo : Nat → List Char → List Char
  | 0, l => l
  | _ + 1, [] => []
  | fuel + 1, c :: rest =>
    if c == '-' then
      match rest with
      | '-' :: rest2 =>
        match rest2 with
        | '>' :: _ => c :: arrowReplaceGo fuel rest
        | _ => '-' :: '-' :: '>' :: arrowReplaceGo fuel rest2
      | _ => c :: arrowReplaceGo fuel rest
    else c :: arrowReplaceGo fuel rest

/-- The arrow fix pass of `attemptAutoFix`: when an arrow-kind error is
present, the global rewrite runs and `fixed` is set unconditionally. -/
def arrowPass (l : List Char) (errors : List MermaidError) : List Char × Bool :=
  if (errors.filter (fun e => decide (e.etype = ErrType.arrow))).length > 0 then
    (arrowReplaceGo l.length l, true)
  else (l, false)

/-- Split off everything before the first occurrence of `t`:
`some (seg, after)` with `l = seg ++ t :: after` and `t ∉ seg`. -/
def splitAtChar (t : Char) : List Char → Option (List Char × List Char)
  | [] => none
  | c :: rest =>
    if c == t then some ([], rest)
    else (splitAtChar t rest).map (fun p => (c :: p.1, p.2))

/-- `label.startsWith('"')`. -/
def startsWithQuote (l : List Char) : Bool :=
  match l with
  | '"' :: _ => true
  | _ => false

/-- `label.endsWith('"')`. -/
def endsWithQuote (l : List Char) : Bool :=
  match l.getLast? with
  | some '"' => true
  | _ => false

/-- One label qualifies for auto-quoting when it contains a character that is
neither a word character nor whitespace (the `[^\w\s]` atom). -/
def labelNeedsQuote (seg : List Char) : Bool :=
  seg.any (fun c => !wordChar c && !jsSpace c)

/-- Global replace of bracketed labels with special characters,
`fixedCode.replace(/\[([^\]]*[^\w\s][^\]]*)\]/g, cb)`: at each `[` the
candidate capture runs to the first following `]`; it matches when it
contains a non-word non-space character, and the callback wraps it in
quotes unless it already starts and ends with a quote. -/
def quoteLabelsGo : Nat → List Char → List Char × Bool
  | 0, l => (l, false)
  | _ + 1, [] => ([], false)
  | fuel + 1, c :: rest =>
    if c == '[' then
      match splitAtChar ']' rest with
      | some (seg, after) =>
        if labelNeedsQuote seg then
          let tail := quoteLabelsGo fuel after
          if !startsWithQuote seg && !endsWithQuote seg then
            ('[' :: '"' :: (seg ++ '"' :: ']' :: tail.1), true)
          else
            ('[' :: (seg ++ ']' :: tail.1), tail.2)
        else
          let tail := quoteLabelsGo fuel rest
          (c :: tail.1, tail.2)
      | none =>
        let tail := quoteLabelsGo fuel rest
        (c :: tail.1, tail.2)
    else
      let tail := quoteLabelsGo fuel rest
      (c :: tail.1, tail.2)

/-- Format the line tag of a suggestion: `error.line || '?'`. -/
def lineTag : Option Nat → String
  | some n => toString n
  | none => "?"

/-- The suggestion list built by `attemptAutoFix` from the original errors. -/
def buildSuggestions (errors : List MermaidError) : List String :=
  errors.filterMap (fun e =>
    e.suggestion.map (fun s => "Line " ++ lineTag e.line ++ ": " ++ s))

/-- `attemptAutoFix` from `background.ts`: node-ID pass, arrow pass, then the
unconditional label-quoting pass; `fixed` is the disjunction of the three
pass flags; the returned `errors` drop node/arrow kinds whenever any pass
fired; `fixedCode` is present exactly when `fixed`. -/
def attemptAutoFix (code : String) (errors : List MermaidError) : FixResult :=
  let p1 := nodePass code.data errors
  let p2 := arrowPass p1.1 errors
  let p3 := quoteLabelsGo p2.1.length p2.1
  let fixed := p1.2 || p2.2 || p3.2
  { fixed := fixed
    fixedCode := if fixed then some (String.mk p3.1) else none
    errors := errors.filter (fun e =>
      !fixed || (!decide (e.etype = ErrType.node) && !decide (e.etype = ErrType.arrow)))
    suggestions := buildSuggestions errors }

/-- The clean result returned when Phase A finds nothing. -/
def cleanFixResult : FixResult :=
  { fixed := false, fixedCode := none, errors := [], suggestions := [] }

/-- `validateAndFix` from `background.ts`. -/
def validateAndFix (code : String) : FixResult :=
  let errors := detectErrors code
  if errors.length = 0 then cleanFixResult
  else attemptAutoFix code errors

/-- JavaScript truthiness of a nullable string: `null` and `""` are falsy. -/
def optStringTruthy : Option String → Bool
  | none => false
  | some s => !(s == "")

/-- Outcome record of `renderMermaid`. -/
structure RenderOutcome where
  success : Bool
  svg : Option String
  error : Option String
  fixResult : Option FixResult
deriving DecidableEq, Repr

/-- `renderMermaid` from `mermaidRenderer.ts`.  The external rendering
capability (`mermaid.render`) is passed as an oracle producing either an
SVG string or a thrown error message; the transient-DOM bookkeeping has no
effect on the returned outcome and is not modelled. -/
def renderMermaid (code : String) (render : String → Except String String) :
    RenderOutcome :=
  let fixResult := validateAndFix code
  let codeToRender :=
    if fixResult.fixed && optStringTruthy fixResult.fixedCode then
      fixResult.fixedCode.getD code
    else code
  match render codeToRender with
  | Except.ok svg =>
    { success := true
      svg := some svg
      error := none
      fixResult := if fixResult.errors.length > 0 then some fixResult else none }
  | Except.error msg =>
    { success := false
      svg := none
      error := some (if msg == "" then "Failed to render Mermaid diagram" else msg)
      fixResult := some fixResult }

/-- View of the nested `code` leaf that `extractMermaidCode` inspects:
its text content, `className`, and the two language attributes. -/
structure CodeLeaf where
  text : String
  className : String
  dataLanguage : Option String
  langAttr : Option String
deriving DecidableEq, Repr

/-- View of a DOM element restricted to exactly what `extractMermaidCode`
reads: tag name, own text, own class/attributes (consulted when the element
itself is a `CODE` leaf), the nested `querySelector('code')` result, and the
two already-rendered tests. -/
structure Elem where
  tagName : String
  textContent : String
  className : String
  dataLanguage : Option String
  langAttr : Option String
  codeChild : Option CodeLeaf
  hasMermaidSvg : Bool
  inGraphsContainer : Bool
deriving DecidableEq, Repr

/-- The diagram-kind keyword list shared by `mermaidStartPattern` and
`looksLikeGraph` (the same nineteen identifiers as `supportedTypes`). -/
def mermaidKeywords : List String := supportedTypes

/-- Test of `mermaidStartPattern`: the text begins with one of the diagram
keywords immediately followed by a whitespace character. -/
def mermaidStartTest (text : String) : Bool :=
  mermaidKeywords.any (fun kw =>
    isPrefixList kw.data text.data &&
      (match text.data.drop kw.length with
       | c :: _ => jsSpace c
       | [] => false))

/-- Within-line bracket test of one alternative of `looksLikeGraph`'s third
pattern: an opening character with a matching closing character after it
(the dot of the source regex does not cross newlines). -/
def lineHasPair (o c : Char) (line : List Char) : Bool :=
  match splitAtChar o line with
  | some (_, after) => after.contains c
  | none => false

/-- `looksLikeGraph` from `utils.ts`: a diagram keyword at the start of some
line, an arrow token, or bracket/paren/brace grouping on some line. -/
def looksLikeGraph (text : String) : Bool :=
  let lines := splitLinesList text.data
  (lines.any fun l => mermaidKeywords.any fun kw => isPrefixList kw.data l) ||
    containsSub "->" text ||
    (lines.any fun l =>
      lineHasPair '[' ']' l || lineHasPair '(' ')' l || lineHasPair '{' '}' l)

/-- The markdown-fenced-block extraction of `extractMermaidCode`: the lazy
capture between the first fence tagged `mermaid` (after its greedy
whitespace run) and the next triple backtick, trimmed. -/
def mdExtract (text : String) : Option String :=
  match findSubList "```mermaid".data text.data with
  | none => none
  | some p =>
    let afterKw := text.data.drop (p + 10)
    let startCap := afterKw.drop (afterKw.takeWhile jsSpace).length
    match findSubList "```".data startCap with
    | none => none
    | some r => some (String.mk (trimList (startCap.take r)))

/-- The code-leaf resolution step of `extractMermaidCode`: the element itself
when it is a `CODE` tag, otherwise its nested `code` child if any. -/
def resolveCodeLeaf (e : Elem) : Option CodeLeaf :=
  if e.tagName == "CODE" then
    some { text := e.textContent, className := e.className,
           dataLanguage := e.dataLanguage, langAttr := e.langAttr }
  else e.codeChild

/-- The text-resolution step of `extractMermaidCode`: trimmed text of the
resolved code leaf (the element's own text for a `CODE` tag), falling back
to the element's own trimmed text. -/
def resolveText (e : Elem) : String :=
  if e.tagName == "CODE" then jsTrim e.textContent
  else
    match e.codeChild with
    | some child => jsTrim child.text
    | none => jsTrim e.textContent

/-- The explicit-language-marker test on the resolved code leaf. -/
def hasMermaidClass (c : CodeLeaf) : Bool :=
  containsSub "mermaid" c.className || containsSub "language-mermaid" c.className ||
    c.dataLanguage == some "mermaid" || c.langAttr == some "mermaid"

/-- `extractMermaidCode` from `utils.ts`. -/
def extractMermaidCode (e : Elem) : Option String :=
  if e.hasMermaidSvg || e.inGraphsContainer then none
  else
    let codeEl := resolveCodeLeaf e
    let text := resolveText e
    if text == "" || text.length < 10 then none
    else
      let marked :=
        match codeEl with
        | some c => hasMermaidClass c
        | none => false
      if marked && looksLikeGraph text then some text
      else if mermaidStartTest text then some text
      else
        match mdExtract text with
        | some inner => some inner
        | none =>
          if codeEl.isSome && looksLikeGraph text &&
              (containsSub "-->" text || containsSub "--" text ||
               containsSub "->>" text || containsSub "participant" text) then
            some text
          else none

/-- One candidate element as the scan coordinator sees it: the extraction
view plus the persistent `data-chatgpt-graphs-processed` attribute. -/
structure ScanElem where
  el : Elem
  attrProcessed : Bool
deriving DecidableEq, Repr

/-- State of the content script: the snapshot of `pre` elements in document
order, the `processedNodes` weak set (by element position), the log of
`renderMermaid` invocations, and the inserted outputs `(position, success)`.
The render outcome of each dispatch is supplied by an oracle so that
theorems quantify over success and failure alike. -/
structure ScanState where
  doc : List ScanElem
  wset : List Nat
  rlog : List Nat
  outputs : List (Nat × Bool)
deriving DecidableEq, Repr

/-- Eligibility of position `i` for dispatch: the element exists, carries no
processed marker in either store, is not nested in a produced container, and
extraction yields a truthy source string. -/
def eligible (st : ScanState) (i : Nat) : Bool :=
  match st.doc[i]? with
  | none => false
  | some e =>
    !(e.attrProcessed || st.wset.contains i) && !e.el.inGraphsContainer &&
      optStringTruthy (extractMermaidCode e.el)

/-- `processElement` from the content script: skip when already processed,
skip when extraction fails, otherwise mark both processed stores
synchronously and invoke the render pipeline; the oracle's outcome affects
only the inserted output, never the markers. -/
def processElement (oracle : Nat → Bool) (st : ScanState) (i : Nat) : ScanState :=
  match st.doc[i]? with
  | none => st
  | some e =>
    if e.attrProcessed || st.wset.contains i then st
    else if optStringTruthy (extractMermaidCode e.el) then
      { doc := st.doc.set i { e with attrProcessed := true }
        wset := i :: st.wset
        rlog := st.rlog ++ [i]
        outputs := st.outputs ++ [(i, oracle i)] }
    else st

/-- One iteration of the `preBlocks.forEach` body of `scanForGraphs`. -/
def scanStep (oracle : Nat → Bool) (st : ScanState) (i : Nat) : ScanState :=
  match st.doc[i]? with
  | none => st
  | some e =>
    if e.attrProcessed || st.wset.contains i then st
    else if e.el.inGraphsContainer then st
    else if optStringTruthy (extractMermaidCode e.el) then
      processElement oracle st i
    else st

/-- Sequential visit of a list of positions. -/
def scanList (oracle : Nat → Bool) : List Nat → ScanState → ScanState
  | [], st => st
  | i :: rest, st => scanList oracle rest (scanStep oracle st i)

/-- `scanForGraphs` from the content script: visit every `pre` element of the
snapshot in document order. -/
def scanForGraphs (oracle : Nat → Bool) (st : ScanState) : ScanState :=
  scanList oracle (List.range st.doc.length) st

/-- The state update performed when an eligible element is dispatched: both
processed markers are written synchronously, the render invocation is
logged, and the output recorded with the oracle's outcome. -/
def dispatchElem (oracle : Nat → Bool) (st : ScanState) (i : Nat) : ScanState :=
  match st.doc[i]? with
  | none => st
  | some e =>
    { doc := st.doc.set i { e with attrProcessed := true }
      wset := i :: st.wset
      rlog := st.rlog ++ [i]
      outputs := st.outputs ++ [(i, oracle i)] }

/-- `attemptAutoFix` with the node-ID rewrite pass deleted (the first fix
block removed bodily); used to state that the node pass is never enabled by
errors coming from `detectErrors`. -/
def attemptAutoFixNoNodePass (code : String) (errors : List MermaidError) :
    FixResult :=
  let p2 := arrowPass code.data errors
  let p3 := quoteLabelsGo p2.1.length p2.1
  let fixed := p2.2 || p3.2
  { fixed := fixed
    fixedCode := if fixed then some (String.mk p3.1) else none
    errors := errors.filter (fun e =>
      !fixed || (!decide (e.etype = ErrType.node) && !decide (e.etype = ErrType.arrow)))
    suggestions := buildSuggestions errors }

/-- A bare `CODE` element (no language attributes, not rendered) holding the
given text; concrete inputs for the theorems below are built from it. -/
def plainCodeElem (t : String) : Elem :=
  { tagName := "CODE", textContent := t, className := "", dataLanguage := none,
    langAttr := none, codeChild := none, hasMermaidSvg := false,
    inGraphsContainer := false }

/-- A `CODE` element whose text is a markdown fence tagged `mermaid` around
the five-character word `hello`. -/
def elemMdFence : Elem := plainCodeElem "```mermaid\nhello\n```"

/-- A `CODE` element whose trimmed text has exactly nine characters. -/
def elemNineChars : Elem := plainCodeElem "graph T\nA"

/-- A `CODE` element whose trimmed text has exactly ten characters and starts
with a diagram keyword followed by whitespace. -/
def elemTenChars : Elem := plainCodeElem "graph TD\nA"

/-- A `CODE` element holding a clean two-line flowchart. -/
def elemFlowchart : Elem := plainCodeElem "flowchart TD\n  A-->B"

/-- A one-element document whose single `pre` block holds the clean
flowchart, nothing processed yet. -/
def scanState0 : ScanState :=
  { doc := [{ el := elemFlowchart, attrProcessed := false }],
    wset := [], rlog := [], outputs := [] }

/-! Helper lemmas about the error detector. -/

theorem nodeDefAt_word {l w : List Char} {n : Nat} (h : nodeDefAt l = some (w, n)) :
    w = l.takeWhile wordChar ∧ w ≠ [] := by
  unfold nodeDefAt at h
  by_cases he : (l.takeWhile wordChar).isEmpty
  · simp only [he, if_true] at h
    exact absurd h (by simp)
  · simp only [he, Bool.false_eq_true, if_false] at h
    split at h
    · injection h with h1
      cases h1
      exact ⟨rfl, fun hw => by simp [hw] at he⟩
    · exact absurd h (by simp)

theorem findNodeDef_word : ∀ {l w : List Char}, findNodeDef l = some w →
    (!w.isEmpty && w.all wordChar) = true := by
  intro l
  induction l with
  | nil => intro w h; simp [findNodeDef] at h
  | cons c rest ih =>
    intro w h
    simp only [findNodeDef] at h
    split at h
    · rename_i p heq
      injection h with h1
      subst h1
      obtain ⟨hw, hne⟩ := nodeDefAt_word heq
      simp only [Bool.and_eq_true, Bool.not_eq_true', List.all_eq_true]
      refine ⟨by simp [hne], fun a ha => ?_⟩
      rw [hw] at ha
      exact List.mem_takeWhile_imp ha
    · exact ih h

theorem nodeCheckLine_nil (idx : Nat) (line : List Char) :
    nodeCheckLine idx line = [] := by
  unfold nodeCheckLine
  cases hf : findNodeDef line with
  | none => rfl
  | some w => simp [findNodeDef_word hf]

theorem perLine_flatten (l : List (Nat × List Char)) :
    (l.map perLineChecks).flatten =
      l.filterMap (fun p => if arrowCond p.2 then some (arrowRec (p.1 + 1)) else none) := by
  induction l with
  | nil => rfl
  | cons p rest ih =>
    simp only [List.map_cons, List.flatten_cons, List.filterMap_cons, perLineChecks,
      nodeCheckLine_nil, arrowCheckLine, List.nil_append]
    by_cases hc : arrowCond p.2 <;> simp [hc, ih]

theorem detectErrors_eq (code : String) :
    detectErrors code =
      unsupportedCheck code ++
        (splitLinesList code.data).enum.filterMap
          (fun p => if arrowCond p.2 then some (arrowRec (p.1 + 1)) else none) ++
        flowchartCheck code := by
  unfold detectErrors
  rw [perLine_flatten]

theorem mem_unsupportedCheck {code : String} {e : MermaidError}
    (h : e ∈ unsupportedCheck code) : e.etype = ErrType.unsupported := by
  simp only [unsupportedCheck] at h
  split at h
  · simp at h
  · split at h
    · simp at h
    · split at h
      · simp only [List.mem_singleton] at h
        subst h; rfl
      · simp at h

theorem mem_flowchartCheck {code : String} {e : MermaidError}
    (h : e ∈ flowchartCheck code) : e.etype = ErrType.syn := by
  simp only [flowchartCheck] at h
  split at h
  · simp only [List.mem_singleton] at h
    subst h; rfl
  · simp at h

theorem mem_arrowPart {l : List (Nat × List Char)} {e : MermaidError}
    (h : e ∈ l.filterMap
      (fun p => if arrowCond p.2 then some (arrowRec (p.1 + 1)) else none)) :
    e.etype = ErrType.arrow := by
  obtain ⟨p, _, hp⟩ := List.mem_filterMap.mp h
  split at hp
  · injection hp with h1; subst h1; rfl
  · exact absurd hp (by simp)

/-- C3: for every input string, `detectErrors` never returns an error of kind
`node` — the node-definition pattern captures the identifier with a word-class
quantifier, so the captured token always consists solely of word characters
and the invalid-identifier branch is unreachable; consequently running
`attemptAutoFix` on errors produced by `detectErrors` behaves identically to
the variant with the node-ID rewrite pass removed. -/
theorem c3_node_branch_unreachable :
    (∀ code : String,
      (detectErrors code).filter (fun e => decide (e.etype = ErrType.node)) = []) ∧
    (∀ src errsrc : String,
      attemptAutoFix src (detectErrors errsrc) =
        attemptAutoFixNoNodePass src (detectErrors errsrc)) := by
  have hfilter : ∀ code : String,
      (detectErrors code).filter (fun e => decide (e.etype = ErrType.node)) = [] := by
    intro code
    rw [detectErrors_eq]
    refine List.filter_eq_nil_iff.mpr fun a ha => ?_
    rcases List.mem_append.mp ha with ha2 | hfc
    · rcases List.mem_append.mp ha2 with hu | harr
      · simp [mem_unsupportedCheck hu]
      · simp [mem_arrowPart harr]
    · simp [mem_flowchartCheck hfc]
  refine ⟨hfilter, fun src errsrc => ?_⟩
  have hnp : nodePass src.data (detectErrors errsrc) = (src.data, false) := by
    unfold nodePass
    rw [hfilter errsrc]
    simp
  simp only [attemptAutoFix, attemptAutoFixNoNodePass, hnp, Bool.false_or]

/-- C2: the spec (and the source's own comment and error message) intend the
input `A-1[Label]` to produce a `node` error naming `A-1` with suggestion
`A_1`; evaluating the code at that input shows that no node-kind error is
produced at all (the word-class capture grabs `1`, which passes the validity
test), and no fixed code is produced either. -/
theorem c2_node_check_never_fires :
    (detectErrors "A-1[Label]").filter (fun e => decide (e.etype = ErrType.node)) = [] ∧
    (validateAndFix "A-1[Label]").fixedCode = none := by
  exact ⟨by rfl, by rfl⟩

/-- C4 counterexample: the single-line input `A --- B` contains `--` and none
of the spec's valid arrow forms `-->`, `--->`, `==>`, yet `detectErrors`
emits no arrow-kind error for it (the code's pattern also accepts `---`). -/
theorem c4_triple_dash_no_arrow_error :
    containsSub "--" "A --- B" = true ∧
    containsSub "-->" "A --- B" = false ∧
    containsSub "--->" "A --- B" = false ∧
    containsSub "==>" "A --- B" = false ∧
    (detectErrors "A --- B").filter (fun e => decide (e.etype = ErrType.arrow)) = [] := by
  exact ⟨by rfl, by rfl, by rfl, by rfl, by rfl⟩

/-- C4 (amended): `detectErrors` emits an arrow-kind error, carrying the
1-based line number and the suggestion to replace `--` with `-->` or `--->`,
exactly for the lines that contain `--` but contain none of the substrings
`---`, `-->`, `==>`; in particular a line containing `---` is treated as
having a valid arrow form and receives no arrow error. -/
theorem c4_arrow_errors_characterized (code : String) :
    (detectErrors code).filter (fun e => decide (e.etype = ErrType.arrow)) =
      (splitLinesList code.data).enum.filterMap
        (fun p => if arrowCond p.2 then some (arrowRec (p.1 + 1)) else none) := by
  rw [detectErrors_eq, List.filter_append, List.filter_append]
  have h1 : (unsupportedCheck code).filter
      (fun e => decide (e.etype = ErrType.arrow)) = [] :=
    List.filter_eq_nil_iff.mpr fun a ha => by simp [mem_unsupportedCheck ha]
  have h2 : (flowchartCheck code).filter
      (fun e => decide (e.etype = ErrType.arrow)) = [] :=
    List.filter_eq_nil_iff.mpr fun a ha => by simp [mem_flowchartCheck ha]
  have h3 : ((splitLinesList code.data).enum.filterMap
        (fun p => if arrowCond p.2 then some (arrowRec (p.1 + 1)) else none)).filter
      (fun e => decide (e.etype = ErrType.arrow)) =
      (splitLinesList code.data).enum.filterMap
        (fun p => if arrowCond p.2 then some (arrowRec (p.1 + 1)) else none) :=
    List.filter_eq_self.mpr fun a ha => by simp [mem_arrowPart ha]
  rw [h1, h2, h3, List.nil_append, List.append_nil]

/-- C5: `validateAndFix` on `"flowchart TD\n  A[Start] -- B[End]"` returns
`fixed = true` with a fixed code containing `A[Start] --> B[End]`, and the
returned error sequence contains no arrow-kind entry (the dangling-flowchart
syntax error detected on the original text remains). -/
theorem c5_arrow_autofix :
    (validateAndFix "flowchart TD\n  A[Start] -- B[End]").fixed = true ∧
    (validateAndFix "flowchart TD\n  A[Start] -- B[End]").fixedCode =
      some "flowchart TD\n  A[Start] --> B[End]" ∧
    containsSub "A[Start] --> B[End]" "flowchart TD\n  A[Start] --> B[End]" = true ∧
    (validateAndFix "flowchart TD\n  A[Start] -- B[End]").errors.all
      (fun e => !decide (e.etype = ErrType.arrow)) = true := by
  exact ⟨by rfl, by rfl, by rfl, by rfl⟩

/-- C9: whenever `detectErrors` returns the empty list, `validateAndFix`
returns exactly the clean result (not fixed, no errors, no suggestions)
without running the auto-fix phase; the input `"flowchart TD\n  A-->B"` is
such a clean input. -/
theorem c9_clean_roundtrip :
    (∀ code : String, detectErrors code = [] → validateAndFix code = cleanFixResult) ∧
    detectErrors "flowchart TD\n  A-->B" = [] := by
  refine ⟨fun code h => ?_, by rfl⟩
  simp [validateAndFix, h]

/-- C9 witness: the clean-input round trip evaluated at the concrete input. -/
theorem c9_clean_roundtrip_witness :
    validateAndFix "flowchart TD\n  A-->B" = cleanFixResult :=
  c9_clean_roundtrip.1 "flowchart TD\n  A-->B" c9_clean_roundtrip.2

/-- C10: `detectErrors` emits an unsupported-kind error exactly when the
trimmed first line's leading word token is non-empty, not a member of the
supported-kind set, and the line is shorter than 50 characters; the error
names the token, carries line 1, and suggests five supported kinds; the
input `"weirdDiagram foo"` yields exactly that one error. -/
theorem c10_unsupported_characterized :
    (∀ code : String,
      (detectErrors code).filter (fun e => decide (e.etype = ErrType.unsupported)) =
        (if takeWord (trimList ((splitLinesList code.data).headD [])) ≠ [] ∧
            String.mk (takeWord (trimList ((splitLinesList code.data).headD []))) ∉
              supportedTypes ∧
            (trimList ((splitLinesList code.data).headD [])).length < 50
         then [unsupportedRec (takeWord (trimList ((splitLinesList code.data).headD [])))]
         else [])) ∧
    detectErrors "weirdDiagram foo" = [unsupportedRec "weirdDiagram".data] := by
  refine ⟨fun code => ?_, by rfl⟩
  rw [detectErrors_eq, List.filter_append, List.filter_append]
  have h2 : ((splitLinesList code.data).enum.filterMap
        (fun p => if arrowCond p.2 then some (arrowRec (p.1 + 1)) else none)).filter
      (fun e => decide (e.etype = ErrType.unsupported)) = [] :=
    List.filter_eq_nil_iff.mpr fun a ha => by simp [mem_arrowPart ha]
  have h3 : (flowchartCheck code).filter
      (fun e => decide (e.etype = ErrType.unsupported)) = [] :=
    List.filter_eq_nil_iff.mpr fun a ha => by simp [mem_flowchartCheck ha]
  have h1 : (unsupportedCheck code).filter
      (fun e => decide (e.etype = ErrType.unsupported)) = unsupportedCheck code :=
    List.filter_eq_self.mpr fun a ha => by simp [mem_unsupportedCheck ha]
  rw [h1, h2, h3, List.append_nil, List.append_nil]
  simp only [unsupportedCheck]
  set fl := trimList ((splitLinesList code.data).headD []) with hfl
  set tok := takeWord fl with htok
  by_cases hb1 : tok.isEmpty
  · simp [hb1, List.isEmpty_iff.mp hb1]
  · by_cases hb2 : supportedTypes.contains (String.mk tok)
    · simp [hb1, hb2, List.elem_iff.mp hb2]
    · by_cases hb3 : fl.length < 50
      · rw [if_neg hb1, if_neg hb2, if_pos hb3, if_pos]
        exact ⟨fun hne => hb1 (by simp [hne]), fun hmem => hb2 (List.elem_iff.mpr hmem), hb3⟩
      · rw [if_neg hb1, if_neg hb2, if_neg hb3, if_neg]
        simp only [ne_eq, not_and]
        intro _ _
        exact hb3

theorem attemptAutoFix_errors_eq (code : String) (errs : List MermaidError) :
    (attemptAutoFix code errs).errors =
      errs.filter (fun e => !(attemptAutoFix code errs).fixed ||
        (!decide (e.etype = ErrType.node) && !decide (e.etype = ErrType.arrow))) := rfl

/-- C6: for every input code and non-empty detected error list, the errors
field of the result of `attemptAutoFix` equals the input list when no fix
pass fired, and equals the input list with every node-kind and arrow-kind
error removed when any fix pass fired, other kinds being retained. -/
theorem c6_errors_bookkeeping (code : String) (errs : List MermaidError)
    (_h : errs ≠ []) :
    (attemptAutoFix code errs).errors =
      if (attemptAutoFix code errs).fixed = true
      then errs.filter (fun e =>
        !decide (e.etype = ErrType.node) && !decide (e.etype = ErrType.arrow))
      else errs := by
  rw [attemptAutoFix_errors_eq]
  cases hb : (attemptAutoFix code errs).fixed
  · simp
  · simp

/-- C6 witness: the bookkeeping theorem evaluated at a concrete input with
one arrow error, where the arrow pass fires. -/
theorem c6_errors_bookkeeping_witness :
    (attemptAutoFix "A -- B" [arrowRec 1]).errors =
      if (attemptAutoFix "A -- B" [arrowRec 1]).fixed = true
      then ([arrowRec 1]).filter (fun e =>
        !decide (e.etype = ErrType.node) && !decide (e.etype = ErrType.arrow))
      else [arrowRec 1] :=
  c6_errors_bookkeeping "A -- B" [arrowRec 1] (by simp)

/-- C7 (amended): `renderMermaid` attaches `fixResult` to a successful
outcome exactly when the retained error list of the fix result — after the
auto-fix resolution bookkeeping — is non-empty; errors found by Phase A but
resolved by fixing do not trigger attachment; on a failed outcome the fix
result is always attached. -/
theorem c7_fixresult_attachment (code : String)
    (render : String → Except String String) :
    (renderMermaid code render).fixResult =
      if (renderMermaid code render).success = true
      then (if (validateAndFix code).errors.length > 0
            then some (validateAndFix code) else none)
      else some (validateAndFix code) := by
  unfold renderMermaid
  dsimp only
  cases hr : render (if ((validateAndFix code).fixed &&
      optStringTruthy (validateAndFix code).fixedCode) = true
    then (validateAndFix code).fixedCode.getD code else code) <;> simp [hr]

/-- C7 counterexample: for the input `"graph TD\n  A -- B"` Phase A finds an
error, the arrow fix resolves it, and `renderMermaid` succeeds with NO
`fixResult` attached — refuting the claim that attachment happens whenever
Phase A found at least one error, even if resolved. -/
theorem c7_resolved_error_not_attached :
    (detectErrors "graph TD\n  A -- B").length > 0 ∧
    (renderMermaid "graph TD\n  A -- B" (fun _ => Except.ok "svg")).success = true ∧
    (renderMermaid "graph TD\n  A -- B" (fun _ => Except.ok "svg")).fixResult = none := by
  refine ⟨by decide, by rfl, by rfl⟩

/-! Helper lemmas about line splitting and the extractor. -/

theorem splitLinesList_ne_nil (l : List Char) : splitLinesList l ≠ [] := by
  cases l with
  | nil => simp [splitLinesList]
  | cons c rest =>
    unfold splitLinesList
    by_cases hc : c == '\n'
    · simp [hc]
    · simp only [hc, Bool.false_eq_true, if_false]
      cases h : splitLinesList rest <;> simp

theorem splitLinesList_cons (b : Char) (ls : List Char) :
    splitLinesList (b :: ls) =
      if b == '\n' then [] :: splitLinesList ls
      else
        match splitLinesList ls with
        | [] => [[b]]
        | l :: ls2 => (b :: l) :: ls2 := rfl

theorem splitLines_cons_headD (b : Char) (ls : List Char) (hb : (b == '\n') = false) :
    (splitLinesList (b :: ls)).headD [] = b :: (splitLinesList ls).headD [] := by
  rw [splitLinesList_cons, if_neg (by simp [hb])]
  cases h : splitLinesList ls with
  | nil => exact absurd h (splitLinesList_ne_nil ls)
  | cons a as => simp

theorem prefix_headD_splitLines : ∀ {p l : List Char},
    isPrefixList p l = true → p.all (fun c => !(c == '\n')) = true →
    isPrefixList p ((splitLinesList l).headD []) = true := by
  intro p
  induction p with
  | nil => intro l _ _; rfl
  | cons a as ih =>
    intro l hp hnl
    cases l with
    | nil => simp [isPrefixList] at hp
    | cons b bs =>
      simp only [isPrefixList, Bool.and_eq_true] at hp
      obtain ⟨hab, hrest⟩ := hp
      simp only [List.all_cons, Bool.and_eq_true] at hnl
      obtain ⟨hna, hnas⟩ := hnl
      have hb : (b == '\n') = false := by
        have hab2 : a = b := by simpa using hab
        subst hab2
        simpa using hna
      rw [splitLines_cons_headD b bs hb]
      simp only [isPrefixList, Bool.and_eq_true]
      exact ⟨hab, ih hrest hnas⟩

theorem mermaidKeywords_no_newline :
    ∀ kw ∈ mermaidKeywords, kw.data.all (fun c => !(c == '\n')) = true := by
  decide

theorem mermaidStart_looksLike {t : String} (h : mermaidStartTest t = true) :
    looksLikeGraph t = true := by
  obtain ⟨kw, hmem, hkw⟩ := List.any_eq_true.mp h
  rw [Bool.and_eq_true] at hkw
  obtain ⟨hpref, _⟩ := hkw
  have hline : (splitLinesList t.data).any
      (fun l => mermaidKeywords.any fun kw => isPrefixList kw.data l) = true := by
    refine List.any_eq_true.mpr ⟨(splitLinesList t.data).headD [], ?_, ?_⟩
    · cases hsp : splitLinesList t.data with
      | nil => exact absurd hsp (splitLinesList_ne_nil t.data)
      | cons l0 rest => simp [hsp]
    · exact List.any_eq_true.mpr ⟨kw, hmem,
        prefix_headD_splitLines hpref (mermaidKeywords_no_newline kw hmem)⟩
  unfold looksLikeGraph
  dsimp only
  simp only [Bool.or_eq_true]
  exact Or.inl (Or.inl hline)

/-- C8 (amended): every non-null result of `extractMermaidCode` is either
produced by the markdown-fence path — whose trimmed fence content may be
shorter than ten characters and may fail every structural pattern — or has
length at least ten and matches a structural diagram pattern; a trimmed
element text of fewer than ten characters is never extracted, and a concrete
ten-character qualifying text is extracted. -/
theorem c8_extraction_invariant :
    (∀ (e : Elem) (s : String), extractMermaidCode e = some s →
      mdExtract (resolveText e) = some s ∨
        (10 ≤ s.length ∧ looksLikeGraph s = true)) ∧
    (∀ e : Elem, (resolveText e).length < 10 → extractMermaidCode e = none) ∧
    extractMermaidCode elemTenChars = some "graph TD\nA" := by
  refine ⟨fun e s h => ?_, fun e hlen => ?_, by rfl⟩
  · unfold extractMermaidCode at h
    split at h
    · exact absurd h (by simp)
    · dsimp only at h
      split at h
      · exact absurd h (by simp)
      · rename_i hguard
        have hle : 10 ≤ (resolveText e).length := by
          rcases Bool.or_eq_false_iff.mp (Bool.not_eq_true _ ▸ hguard) with ⟨_, h2⟩
          simp only [decide_eq_false_iff_not] at h2
          omega
        split at h
        · rename_i hmk
          injection h with h1
          subst h1
          exact Or.inr ⟨hle, (Bool.and_eq_true _ _ ▸ hmk).2⟩
        · split at h
          · rename_i hstart
            injection h with h1
            subst h1
            exact Or.inr ⟨hle, mermaidStart_looksLike hstart⟩
          · split at h
            · rename_i inner hmd
              injection h with h1
              subst h1
              exact Or.inl hmd
            · split at h
              · rename_i hlast
                injection h with h1
                subst h1
                refine Or.inr ⟨hle, ?_⟩
                have := Bool.and_eq_true _ _ ▸ hlast
                exact (Bool.and_eq_true _ _ ▸ this.1).2
              · exact absurd h (by simp)
  · unfold extractMermaidCode
    split
    · rfl
    · dsimp only
      rw [if_pos]
      simp only [Bool.or_eq_true, decide_eq_true_eq]
      exact Or.inr hlen

/-- C8 counterexample: `extractMermaidCode` on a code element holding a
markdown fence tagged `mermaid` around the word `hello` returns the
five-character string `hello`, which is shorter than ten characters and
matches no structural diagram pattern — refuting the claimed invariant. -/
theorem c8_markdown_fence_counterexample :
    extractMermaidCode elemMdFence = some "hello" ∧
    ("hello" : String).length < 10 ∧ looksLikeGraph "hello" = false :=
  ⟨by rfl, by decide, by rfl⟩

/-- C8 witness: the amended invariant evaluated at a nine-character element
and at the markdown-fence element. -/
theorem c8_extraction_invariant_witness :
    extractMermaidCode elemNineChars = none ∧
    (mdExtract (resolveText elemMdFence) = some "hello" ∨
      (10 ≤ ("hello" : String).length ∧ looksLikeGraph "hello" = true)) :=
  ⟨c8_extraction_invariant.2.1 elemNineChars (by decide),
    c8_extraction_invariant.1 elemMdFence "hello" (by rfl)⟩

/-! Lemmas about the scan coordinator, leading to the idempotence claim. -/

theorem scanStep_char (o : Nat → Bool) (st : ScanState) (i : Nat) :
    scanStep o st i = if eligible st i = true then dispatchElem o st i else st := by
  unfold scanStep eligible dispatchElem
  cases hd : st.doc[i]?
  · simp
  · rename_i e
    simp only [processElement, hd]
    by_cases hA : e.attrProcessed = true ∨ i ∈ st.wset
    · rcases hA with h | h <;> simp [h]
    · push_neg at hA
      obtain ⟨h1, h2⟩ := hA
      have h1f : e.attrProcessed = false := by revert h1; cases e.attrProcessed <;> simp
      by_cases hC : e.el.inGraphsContainer = true
      · simp [h1f, h2, hC]
      · have hCf : e.el.inGraphsContainer = false := by
          revert hC; cases e.el.inGraphsContainer <;> simp
        by_cases hT : optStringTruthy (extractMermaidCode e.el) = true
        · simp [h1f, h2, hCf, hT]
        · simp [h1f, h2, hCf, hT]

theorem eligible_lt {st : ScanState} {i : Nat} (h : eligible st i = true) :
    i < st.doc.length := by
  unfold eligible at h
  cases hd : st.doc[i]? with
  | none => rw [hd] at h; simp at h
  | some e =>
    have := List.getElem?_eq_some.mp hd
    exact this.1

theorem scanStep_not_eligible (o : Nat → Bool) (st : ScanState) (i : Nat)
    (h : eligible st i = false) : scanStep o st i = st := by
  rw [scanStep_char, if_neg]
  simp [h]

theorem scanStep_doc_length (o : Nat → Bool) (st : ScanState) (i : Nat) :
    (scanStep o st i).doc.length = st.doc.length := by
  rw [scanStep_char]
  split
  · unfold dispatchElem
    cases hd : st.doc[i]? <;> simp
  · rfl

theorem scanStep_rlog_self (o : Nat → Bool) (st : ScanState) (i : Nat)
    (he : eligible st i = true) : (scanStep o st i).rlog = st.rlog ++ [i] := by
  rw [scanStep_char, if_pos he]
  unfold eligible at he
  cases hd : st.doc[i]? with
  | none => rw [hd] at he; simp at he
  | some e => unfold dispatchElem; rw [hd]

theorem eligible_scanStep_self (o : Nat → Bool) (st : ScanState) (i : Nat) :
    eligible (scanStep o st i) i = false := by
  rw [scanStep_char]
  by_cases he : eligible st i = true
  · rw [if_pos he]
    have hlt := eligible_lt he
    unfold eligible at he ⊢
    cases hd : st.doc[i]? with
    | none => rw [hd] at he; simp at he
    | some e =>
      unfold dispatchElem
      rw [hd]
      simp [List.getElem?_set_self hlt]
  · rw [if_neg he]
    revert he
    cases eligible st i <;> simp

theorem eligible_scanStep_other (o : Nat → Bool) (st : ScanState) (i j : Nat)
    (h : j ≠ i) : eligible (scanStep o st j) i = eligible st i := by
  rw [scanStep_char]
  by_cases he : eligible st j = true
  · rw [if_pos he]
    unfold dispatchElem
    cases hd : st.doc[j]? with
    | none => rfl
    | some e =>
      unfold eligible
      have hgi : (st.doc.set j { e with attrProcessed := true })[i]? = st.doc[i]? :=
        List.getElem?_set_ne h
      rw [hgi]
      cases hdi : st.doc[i]? with
      | none => rfl
      | some f =>
        have hcon : (j :: st.wset).contains i = st.wset.contains i := by
          simp [List.contains_cons, Ne.symm h]
        rw [hcon]
  · rw [if_neg he]

theorem scanStep_count_other (o : Nat → Bool) (st : ScanState) (i j : Nat)
    (h : j ≠ i) : (scanStep o st j).rlog.count i = st.rlog.count i := by
  rw [scanStep_char]
  split
  · unfold dispatchElem
    cases hd : st.doc[j]? with
    | none => rfl
    | some e => simp [List.count_append, List.count_singleton, h]
  · rfl

theorem scanList_doc_length (o : Nat → Bool) :
    ∀ (idxs : List Nat) (st : ScanState),
    (scanList o idxs st).doc.length = st.doc.length := by
  intro idxs
  induction idxs with
  | nil => intro st; rfl
  | cons j rest ih =>
    intro st
    unfold scanList
    rw [ih (scanStep o st j), scanStep_doc_length]

theorem scanList_count_not_mem (o : Nat → Bool) :
    ∀ (idxs : List Nat) (st : ScanState) (i : Nat), i ∉ idxs →
    (scanList o idxs st).rlog.count i = st.rlog.count i := by
  intro idxs
  induction idxs with
  | nil => intro st i _; rfl
  | cons j rest ih =>
    intro st i h
    unfold scanList
    rw [ih (scanStep o st j) i (fun hm => h (List.mem_cons_of_mem j hm)),
      scanStep_count_other o st i j (fun hj => h (hj ▸ List.mem_cons_self j rest))]

theorem scanList_eligible_not_mem (o : Nat → Bool) :
    ∀ (idxs : List Nat) (st : ScanState) (i : Nat), i ∉ idxs →
    eligible (scanList o idxs st) i = eligible st i := by
  intro idxs
  induction idxs with
  | nil => intro st i _; rfl
  | cons j rest ih =>
    intro st i h
    unfold scanList
    rw [ih (scanStep o st j) i (fun hm => h (List.mem_cons_of_mem j hm)),
      eligible_scanStep_other o st i j (fun hj => h (hj ▸ List.mem_cons_self j rest))]

theorem eligible_scanStep_false (o : Nat → Bool) (st : ScanState) (i j : Nat)
    (h : eligible st i = false) : eligible (scanStep o st j) i = false := by
  by_cases hj : j = i
  · subst hj; exact eligible_scanStep_self o st j
  · rw [eligible_scanStep_other o st i j hj]; exact h

theorem scanList_eligible_false (o : Nat → Bool) :
    ∀ (idxs : List Nat) (st : ScanState) (i : Nat), eligible st i = false →
    eligible (scanList o idxs st) i = false := by
  intro idxs
  induction idxs with
  | nil => intro st i h; exact h
  | cons j rest ih =>
    intro st i h
    exact ih (scanStep o st j) i (eligible_scanStep_false o st i j h)

theorem scanList_eligible_mem (o : Nat → Bool) :
    ∀ (idxs : List Nat) (st : ScanState) (i : Nat), i ∈ idxs →
    eligible (scanList o idxs st) i = false := by
  intro idxs
  induction idxs with
  | nil => intro st i h; simp at h
  | cons j rest ih =>
    intro st i h
    by_cases hm : i ∈ rest
    · exact ih (scanStep o st j) i hm
    · have hij : i = j := by
        rcases List.mem_cons.mp h with h1 | h1
        · exact h1
        · exact absurd h1 hm
      subst hij
      exact scanList_eligible_false o rest (scanStep o st i) i
        (eligible_scanStep_self o st i)

theorem scanList_count (o : Nat → Bool) :
    ∀ (idxs : List Nat) (st : ScanState) (i : Nat), idxs.Nodup →
    (scanList o idxs st).rlog.count i =
      st.rlog.count i + (if i ∈ idxs ∧ eligible st i = true then 1 else 0) := by
  intro idxs
  induction idxs with
  | nil => intro st i _; simp [scanList]
  | cons j rest ih =>
    intro st i hnd
    obtain ⟨hjr, hndr⟩ := List.nodup_cons.mp hnd
    unfold scanList
    by_cases hij : j = i
    · subst hij
      have hjrest : j ∉ rest := hjr
      by_cases he : eligible st j = true
      · rw [ih (scanStep o st j) j hndr, scanStep_rlog_self o st j he]
        rw [eligible_scanStep_self o st j]
        simp [hjrest, he, List.count_append]
      · rw [scanStep_not_eligible o st j (by revert he; cases eligible st j <;> simp)]
        rw [ih st j hndr]
        simp [hjrest, he]
    · rw [ih (scanStep o st j) i hndr, scanStep_count_other o st i j hij,
        eligible_scanStep_other o st i j hij]
      have hm : (i ∈ j :: rest) ↔ (i ∈ rest) := by
        simp [List.mem_cons, show i ≠ j from fun he => hij he.symm]
      simp only [hm]

theorem scanList_noop (o : Nat → Bool) :
    ∀ (idxs : List Nat) (st : ScanState),
    (∀ i ∈ idxs, eligible st i = false) → scanList o idxs st = st := by
  intro idxs
  induction idxs with
  | nil => intro st _; rfl
  | cons j rest ih =>
    intro st h
    unfold scanList
    rw [scanStep_not_eligible o st j (h j (List.mem_cons_self j rest))]
    exact ih st (fun i hi => h i (List.mem_cons_of_mem j hi))

/-- C1: running a scan twice in succession with no intervening document
mutation leaves the render log unchanged on the second pass, and each
candidate element that is initially eligible is dispatched to the render
pipeline exactly once (ineligible elements zero times), for every render
outcome oracle — in particular a render failure does not revert the
processed markers and the element is never dispatched a second time. -/
theorem c1_scan_exactly_once (o : Nat → Bool) (st : ScanState) (i : Nat)
    (h : st.rlog = []) :
    (scanForGraphs o (scanForGraphs o st)).rlog = (scanForGraphs o st).rlog ∧
    (scanForGraphs o (scanForGraphs o st)).rlog.count i =
      (if eligible st i = true then 1 else 0) := by
  have hsecond : scanForGraphs o (scanForGraphs o st) = scanForGraphs o st := by
    set s1 := scanForGraphs o st with hs1
    have hlen : s1.doc.length = st.doc.length := by
      rw [hs1]
      unfold scanForGraphs
      exact scanList_doc_length o (List.range st.doc.length) st
    show scanForGraphs o s1 = s1
    unfold scanForGraphs
    rw [hlen]
    apply scanList_noop
    intro j hj
    rw [hs1]
    unfold scanForGraphs
    exact scanList_eligible_mem o (List.range st.doc.length) st j hj
  refine ⟨by rw [hsecond], ?_⟩
  rw [hsecond]
  unfold scanForGraphs
  rw [scanList_count o (List.range st.doc.length) st i (List.nodup_range _)]
  rw [h]
  simp only [List.count_nil, Nat.zero_add]
  by_cases he : eligible st i = true
  · have hlt : i < st.doc.length := eligible_lt he
    simp [he, List.mem_range, hlt]
  · simp [he]

/-- C1 witness: the double-scan theorem evaluated on a one-element document
holding a clean flowchart, under an always-failing render oracle. -/
theorem c1_scan_exactly_once_witness :
    (scanForGraphs (fun _ => false)
      (scanForGraphs (fun _ => false) scanState0)).rlog.count 0 = 1 := by
  have h := (c1_scan_exactly_once (fun _ => false) scanState0 0 rfl).2
  rw [h]
  rfl

end ChatGptGraphs
